import Mathlib

/-!
# Verification of the ray-tracing core (rust-ray-tracing)

A shallow embedding, over the real numbers, of the intersection and
light-transport core of the `rust-ray-tracing` repository:

* `Vec3` algebra and `Ray` (src/vec3.rs, src/ray.rs),
* `HitRecord` and the `Hittable` contract with `Sphere.hit` and
  `HittableList.hit` (src/object.rs, src/sphere.rs),
* the three material scatter functions (src/material.rs),
* the recursive radiance estimator `ray_color` (src/main.rs).

The source computes with `f32`; the embedding uses `ℝ`, so the theorems
describe the algorithms in exact arithmetic.  The source's boolean +
mutable-out-parameter calling convention (`fn hit(&self, ..., hit_record:
&mut HitRecord) -> bool`) is modelled by functions taking the incoming
record and returning a `Bool × HitRecord` pair.  Randomness (the
`ThreadRng` handle threaded through the source) is modelled by passing
the drawn sample values as explicit arguments, and for `ray_color` by an
abstract random-state type `σ` threaded through the scatter oracle.
-/

noncomputable section

open Real

/-- Three-component vector, also used as point and color (src/vec3.rs,
`pub struct Vec3(f32, f32, f32)`). -/
structure Vec3 where
  x : ℝ
  y : ℝ
  z : ℝ

/-- `Vec3::zero()`. -/
def Vec3.zero : Vec3 := ⟨0, 0, 0⟩

/-- `Vec3::length_squared`. -/
def Vec3.length_squared (v : Vec3) : ℝ := v.x * v.x + v.y * v.y + v.z * v.z

/-- `Vec3::length`. -/
def Vec3.length (v : Vec3) : ℝ := Real.sqrt v.length_squared

/-- `Vec3::dot`. -/
def Vec3.dot (a b : Vec3) : ℝ := a.x * b.x + a.y * b.y + a.z * b.z

instance : Add Vec3 := ⟨fun a b => ⟨a.x + b.x, a.y + b.y, a.z + b.z⟩⟩

instance : Sub Vec3 := ⟨fun a b => ⟨a.x - b.x, a.y - b.y, a.z - b.z⟩⟩

instance : Neg Vec3 := ⟨fun v => ⟨-v.x, -v.y, -v.z⟩⟩

/-- Scalar multiplication `f32 * Vec3` / `Vec3 * f32` of src/vec3.rs. -/
instance : SMul ℝ Vec3 := ⟨fun k v => ⟨k * v.x, k * v.y, k * v.z⟩⟩

/-- Component-wise product `Vec3 * Vec3` of src/vec3.rs. -/
instance : Mul Vec3 := ⟨fun a b => ⟨a.x * b.x, a.y * b.y, a.z * b.z⟩⟩

/-- `Vec3 / f32`, defined in the source as `(1.0 / v) * self`. -/
instance : HDiv Vec3 ℝ Vec3 := ⟨fun v k => (1 / k) • v⟩

@[simp] theorem Vec3.add_def (a b : Vec3) :
    a + b = ⟨a.x + b.x, a.y + b.y, a.z + b.z⟩ := rfl

@[simp] theorem Vec3.sub_def (a b : Vec3) :
    a - b = ⟨a.x - b.x, a.y - b.y, a.z - b.z⟩ := rfl

@[simp] theorem Vec3.neg_def (v : Vec3) : -v = ⟨-v.x, -v.y, -v.z⟩ := rfl

@[simp] theorem Vec3.smul_def (k : ℝ) (v : Vec3) :
    k • v = ⟨k * v.x, k * v.y, k * v.z⟩ := rfl

@[simp] theorem Vec3.mul_def (a b : Vec3) :
    a * b = ⟨a.x * b.x, a.y * b.y, a.z * b.z⟩ := rfl

@[simp] theorem Vec3.div_def (v : Vec3) (k : ℝ) : v / k = (1 / k) • v := rfl

/-- The epsilon of `Vec3::is_near_zero` (src/vec3.rs, `const EPS: f32 = 1e-8`). -/
def Vec3.EPS : ℝ := 1e-8

/-- `Vec3::is_near_zero`: `(self.0 < EPS) && (self.1 < EPS) && (self.2 < EPS)`.
Note the source compares the signed components, without absolute value. -/
def Vec3.is_near_zero (v : Vec3) : Bool :=
  decide (v.x < Vec3.EPS) && decide (v.y < Vec3.EPS) && decide (v.z < Vec3.EPS)

/-- `unit_vector(v) = v / v.length()` (src/vec3.rs). -/
def unit_vector (v : Vec3) : Vec3 := v / v.length

/-- `Ray` (src/ray.rs): origin plus direction. -/
structure Ray where
  origin : Vec3
  direction : Vec3

/-- `Ray::at(t) = origin + t * direction` (src/ray.rs). -/
def Ray.pointAt (r : Ray) (t : ℝ) : Vec3 := r.origin + t • r.direction

/-- `Lambertian` material (src/material.rs). -/
structure Lambertian where
  albedo : Vec3

/-- `Metal` material (src/material.rs). -/
structure Metal where
  albedo : Vec3
  fuzz : ℝ

/-- `Dielectric` material (src/material.rs). -/
structure Dielectric where
  refraction_index : ℝ

/-- The closed material variant set (src/material.rs, `enum Material`). -/
inductive Material where
  | lambertian (inner : Lambertian)
  | metal (inner : Metal)
  | dielectric (inner : Dielectric)

/-- `HitRecord` (src/object.rs). -/
structure HitRecord where
  point : Vec3
  normal : Vec3
  material : Material
  t : ℝ
  front_face : Bool

/-- `HitRecord::empty()` (src/object.rs). -/
def HitRecord.empty : HitRecord :=
  { point := Vec3.zero
    normal := Vec3.zero
    material := Material.lambertian ⟨⟨0, 0, 0⟩⟩
    t := 0
    front_face := false }

/-- `HitRecord::set_face_normal` (src/object.rs): set `front_face` to
whether the ray direction and the outward normal point in opposite
directions, and orient the stored normal against the ray. -/
def HitRecord.set_face_normal (rec : HitRecord) (ray : Ray)
    (outward_normal : Vec3) : HitRecord :=
  let ff := decide (ray.direction.dot outward_normal < 0)
  { rec with
    front_face := ff
    normal := if ff then outward_normal else -outward_normal }

/-- `Sphere` (src/sphere.rs). -/
structure Sphere where
  center : Vec3
  radius : ℝ
  material : Material

/-- The record written by `Sphere::hit` once a root has been accepted
(src/sphere.rs lines 45-50): store `t` and the hit point, compute the
outward normal from the hit point, orient it with `set_face_normal`, and
copy the sphere's material. -/
def Sphere.hitRecordAt (s : Sphere) (ray : Ray) (root : ℝ)
    (rec : HitRecord) : HitRecord :=
  let rec1 := { rec with t := root, point := ray.pointAt root }
  let rec2 := rec1.set_face_normal ray (unit_vector (rec1.point - s.center))
  { rec2 with material := s.material }

/-- `Sphere::hit` (src/sphere.rs): half-b quadratic discriminant test and
root selection.  Returns the source's `bool` together with the (possibly
updated) out-parameter record. -/
def Sphere.hit (s : Sphere) (ray : Ray) (t_min t_max : ℝ)
    (rec : HitRecord) : Bool × HitRecord :=
  let origin_center := ray.origin - s.center
  let a := ray.direction.length_squared
  let half_b := ray.direction.dot origin_center
  let c := origin_center.length_squared - s.radius * s.radius
  let discriminant := half_b * half_b - a * c
  if discriminant < 0 then (false, rec)
  else
    let sqrt_discriminant := Real.sqrt discriminant
    let root1 := (-half_b - sqrt_discriminant) / a
    if root1 < t_min ∨ root1 > t_max then
      let root2 := (-half_b + sqrt_discriminant) / a
      if root2 < t_min ∨ root2 > t_max then (false, rec)
      else (true, s.hitRecordAt ray root2 rec)
    else (true, s.hitRecordAt ray root1 rec)

/-- The parameter values at which a given sphere actually intersects a
ray inside `[t_min, t_max]`: the discriminant is nonnegative and `t` is
one of the two quadratic roots computed by `Sphere::hit`, within bounds. -/
def Sphere.validT (s : Sphere) (ray : Ray) (t_min t_max t : ℝ) : Prop :=
  let origin_center := ray.origin - s.center
  let a := ray.direction.length_squared
  let half_b := ray.direction.dot origin_center
  let c := origin_center.length_squared - s.radius * s.radius
  let discriminant := half_b * half_b - a * c
  0 ≤ discriminant ∧
    (t = (-half_b - Real.sqrt discriminant) / a ∨
     t = (-half_b + Real.sqrt discriminant) / a) ∧
    t_min ≤ t ∧ t ≤ t_max

/-- The shape of a `Hittable::hit` implementation (src/object.rs):
boolean result plus the out-parameter record. -/
def HitFn : Type :=
  Ray → ℝ → ℝ → HitRecord → Bool × HitRecord

/-- The loop body of `HittableList::hit` (src/object.rs lines 64-70):
scan the members, passing `closest_so_far` as the member's `t_max`,
threading the temporary record, and copying it to the caller's record on
every accepted hit. -/
def hitLoop (ray : Ray) (t_min : ℝ) :
    List HitFn → HitRecord → HitRecord → ℝ → Bool → Bool × HitRecord
  | [], _tmp, rec, _closest, hit_anything => (hit_anything, rec)
  | f :: rest, tmp, rec, closest, hit_anything =>
    let r := f ray t_min closest tmp
    if r.1 then hitLoop ray t_min rest r.2 r.2 r.2.t true
    else hitLoop ray t_min rest r.2 rec closest hit_anything

/-- `HittableList::hit` (src/object.rs): temporary record starts empty,
`hit_anything` starts false and `closest_so_far` starts at the caller's
`t_max`. -/
def HittableList.hit (objects : List HitFn) (ray : Ray) (t_min t_max : ℝ)
    (rec : HitRecord) : Bool × HitRecord :=
  hitLoop ray t_min objects HitRecord.empty rec t_max false

/-- `reflect` (src/material.rs): `vec - 2 * vec.dot(normal) * normal`. -/
def reflect (vec normal : Vec3) : Vec3 :=
  vec - (2 * vec.dot normal) • normal

/-- `refract` (src/material.rs): Snell refraction decomposed into the
perpendicular and parallel components. -/
def refract (i_ray normal : Vec3)
    (refraction_index_src refraction_index_dst : ℝ) : Vec3 :=
  let etai_over_etat := refraction_index_src / refraction_index_dst
  let cos_theta := min 1 (-(i_ray.dot normal))
  let r_out_perp := etai_over_etat • (i_ray + cos_theta • normal)
  let r_out_parallel :=
    (-Real.sqrt |1 - r_out_perp.length_squared|) • normal
  r_out_perp + r_out_parallel

/-- `Lambertian::scatter` (src/material.rs).  The random unit vector the
source draws from `rng` is passed as the argument `random_unit`.  The
result triple is (returned bool, written attenuation, written scattered
ray). -/
def Lambertian.scatter (l : Lambertian) (_in_ray : Ray)
    (hit_record : HitRecord) (random_unit : Vec3) : Bool × Vec3 × Ray :=
  let scatter_direction := hit_record.normal + random_unit
  let d := if scatter_direction.is_near_zero then hit_record.normal
           else scatter_direction
  (true, l.albedo, Ray.mk hit_record.point d)

/-- `Metal::scatter` (src/material.rs).  The random point in the unit
ball is passed as the argument `random_in_sphere`. -/
def Metal.scatter (m : Metal) (in_ray : Ray) (hit_record : HitRecord)
    (random_in_sphere : Vec3) : Bool × Vec3 × Ray :=
  let reflected := reflect (unit_vector in_ray.direction) hit_record.normal
  let scattered :=
    Ray.mk hit_record.point (reflected + m.fuzz • random_in_sphere)
  (decide (scattered.direction.dot hit_record.normal > 0), m.albedo,
    scattered)

/-- `Dielectric::reflectance` (src/material.rs): Schlick approximation. -/
def Dielectric.reflectance (cos refraction_index_src : ℝ) : ℝ :=
  let r0 := (1 - refraction_index_src) / (1 + refraction_index_src)
  let r0sq := r0 * r0
  r0sq + (1 - r0sq) * (1 - cos) ^ 5

/-- `Dielectric::scatter` (src/material.rs).  The uniform draw
`rng.gen::<f32>()` is passed as the argument `u`. -/
def Dielectric.scatter (die : Dielectric) (in_ray : Ray)
    (hit_record : HitRecord) (u : ℝ) : Bool × Vec3 × Ray :=
  let p : ℝ × ℝ :=
    if hit_record.front_face then (1, die.refraction_index)
    else (die.refraction_index, 1)
  let etai_over_etat := p.1 / p.2
  let unit_direction := unit_vector in_ray.direction
  let cos_theta := min ((-unit_direction).dot hit_record.normal) 1
  let sin_theta := Real.sqrt (1 - cos_theta * cos_theta)
  let cannot_refract := etai_over_etat * sin_theta > 1
  let direction :=
    if cannot_refract ∨ Dielectric.reflectance cos_theta etai_over_etat > u
    then reflect unit_direction hit_record.normal
    else refract unit_direction hit_record.normal p.1 p.2
  (true, ⟨1, 1, 1⟩, Ray.mk hit_record.point direction)

/-- The exact value of `f32::MAX`, the upper interval bound `ray_color`
passes to the scene query (src/main.rs line 94). -/
def f32_max : ℝ := 340282346638528859811704183484516925440

/-- `ray_color` (src/main.rs lines 82-111).  The scene (`world`) is the
abstract `HitFn` of its `Hittable` bound; the material dispatch
`hit_record.material.scatter(...)` together with the `ThreadRng` handle
is modelled by the oracle `scatter`, which consumes a random-source
state `σ` and returns the source's (bool, attenuation, scattered ray)
along with the advanced random state.  The bounce budget is a `Nat`
(`u16` in the source), so `bounce_limit <= 0` is the `0` case. -/
def ray_color {σ : Type} (world_hit : HitFn)
    (scatter : σ → Material → Ray → HitRecord → Bool × Vec3 × Ray × σ)
    (ray : Ray) (rng : σ) : Nat → Vec3 × σ
  | 0 => (Vec3.zero, rng)
  | n + 1 =>
    let res := world_hit ray 0.001 f32_max HitRecord.empty
    if res.1 then
      let sc := scatter rng res.2.material ray res.2
      if sc.1 then
        let rc := ray_color world_hit scatter sc.2.2.1 sc.2.2.2 n
        (sc.2.1 * rc.1, rc.2)
      else (sc.2.1, sc.2.2.2)
    else
      let white : Vec3 := ⟨1, 1, 1⟩
      let blue : Vec3 := ⟨0.5, 0.7, 1⟩
      let unit_direction := unit_vector ray.direction
      let t := 0.5 * (unit_direction.y + 1)
      ((1 - t) • white + t • blue, rng)

/-- Number of invocations of `ray_color` (the initial call included)
performed when evaluating `ray_color` with the same arguments: the same
branching structure, counting `1` per call plus the recursive count when
the source recurses. -/
def ray_color_calls {σ : Type} (world_hit : HitFn)
    (scatter : σ → Material → Ray → HitRecord → Bool × Vec3 × Ray × σ)
    (ray : Ray) (rng : σ) : Nat → Nat
  | 0 => 1
  | n + 1 =>
    let res := world_hit ray 0.001 f32_max HitRecord.empty
    if res.1 then
      let sc := scatter rng res.2.material ray res.2
      if sc.1 then
        1 + ray_color_calls world_hit scatter sc.2.2.1 sc.2.2.2 n
      else 1
    else 1

/-! ## Basic vector algebra lemmas -/

theorem Vec3.length_squared_nonneg (v : Vec3) : 0 ≤ v.length_squared := by
  unfold Vec3.length_squared
  have hx := mul_self_nonneg v.x
  have hy := mul_self_nonneg v.y
  have hz := mul_self_nonneg v.z
  linarith

theorem Vec3.length_squared_eq_zero_iff (v : Vec3) :
    v.length_squared = 0 ↔ v = Vec3.zero := by
  unfold Vec3.length_squared Vec3.zero
  constructor
  · intro h
    have hx : v.x * v.x = 0 :=
      le_antisymm (by nlinarith [mul_self_nonneg v.y, mul_self_nonneg v.z])
        (mul_self_nonneg v.x)
    have hy : v.y * v.y = 0 :=
      le_antisymm (by nlinarith [mul_self_nonneg v.x, mul_self_nonneg v.z])
        (mul_self_nonneg v.y)
    have hz : v.z * v.z = 0 :=
      le_antisymm (by nlinarith [mul_self_nonneg v.x, mul_self_nonneg v.y])
        (mul_self_nonneg v.z)
    cases v
    simp_all [mul_self_eq_zero]
  · rintro rfl
    norm_num

theorem Vec3.length_squared_smul (k : ℝ) (v : Vec3) :
    (k • v).length_squared = k ^ 2 * v.length_squared := by
  simp [Vec3.length_squared]
  ring

theorem Vec3.length_neg (v : Vec3) : (-v).length = v.length := by
  unfold Vec3.length
  congr 1
  simp [Vec3.length_squared]

theorem Vec3.dot_neg_right (a b : Vec3) : a.dot (-b) = -(a.dot b) := by
  simp [Vec3.dot]
  ring

theorem unit_vector_length (v : Vec3) (h : 0 < v.length_squared) :
    (unit_vector v).length = 1 := by
  have hlen : 0 < v.length := Real.sqrt_pos.mpr h
  have hinv : (0:ℝ) ≤ 1 / v.length := by positivity
  have hsq : (unit_vector v).length_squared
      = (1 / v.length) ^ 2 * v.length_squared := by
    unfold unit_vector
    rw [Vec3.div_def, Vec3.length_squared_smul]
  rw [Vec3.length, hsq, Real.sqrt_mul (sq_nonneg _), Real.sqrt_sq hinv]
  rw [show Real.sqrt v.length_squared = v.length from rfl]
  field_simp

/-! ## Quadratic root facts for `Sphere.hit` -/

theorem quadratic_root_eval (a h c sd root : ℝ) (ha : a ≠ 0)
    (hsd : sd * sd = h * h - a * c)
    (hr : root = (-h - sd) / a ∨ root = (-h + sd) / a) :
    a * (root * root) + 2 * h * root + c = 0 := by
  rcases hr with hr | hr <;> subst hr <;> field_simp <;> nlinarith [hsd]

theorem pointAt_sub_lsq (s : Sphere) (ray : Ray) (root : ℝ) :
    (ray.pointAt root - s.center).length_squared
      = ray.direction.length_squared * (root * root)
        + 2 * (ray.direction.dot (ray.origin - s.center)) * root
        + (ray.origin - s.center).length_squared := by
  simp [Ray.pointAt, Vec3.length_squared, Vec3.dot]
  ring

theorem Sphere.validT_bounds {s : Sphere} {ray : Ray} {t_min t_max t : ℝ}
    (hv : s.validT ray t_min t_max t) : t_min ≤ t ∧ t ≤ t_max := by
  simp only [Sphere.validT] at hv
  exact ⟨hv.2.2.1, hv.2.2.2⟩

theorem Sphere.validT_mono {s : Sphere} {ray : Ray} {t_min c c' t : ℝ}
    (hcc : c ≤ c') (hv : s.validT ray t_min c t) :
    s.validT ray t_min c' t := by
  simp only [Sphere.validT] at hv ⊢
  exact ⟨hv.1, hv.2.1, hv.2.2.1, hv.2.2.2.trans hcc⟩

theorem Sphere.validT_restrict {s : Sphere} {ray : Ray} {t_min c c' t : ℝ}
    (hv : s.validT ray t_min c t) (ht : t ≤ c') :
    s.validT ray t_min c' t := by
  simp only [Sphere.validT] at hv ⊢
  exact ⟨hv.1, hv.2.1, hv.2.2.1, ht⟩

theorem validT_point_on_sphere (s : Sphere) (ray : Ray)
    (t_min t_max root : ℝ) (ha : ray.direction.length_squared ≠ 0)
    (hv : s.validT ray t_min t_max root) :
    (ray.pointAt root - s.center).length_squared = s.radius * s.radius := by
  simp only [Sphere.validT] at hv
  obtain ⟨hd, hroot, -, -⟩ := hv
  have hsd := Real.mul_self_sqrt hd
  have h0 := quadratic_root_eval ray.direction.length_squared
    (ray.direction.dot (ray.origin - s.center))
    ((ray.origin - s.center).length_squared - s.radius * s.radius)
    (Real.sqrt _) root ha hsd hroot
  rw [pointAt_sub_lsq]
  linarith [h0]

theorem roots_ordered (a h sd : ℝ) (ha : 0 ≤ a) (hsd : 0 ≤ sd) :
    (-h - sd) / a ≤ (-h + sd) / a := by
  rcases eq_or_lt_of_le ha with h0 | h0
  · rw [← h0]
    simp
  · have : -h - sd ≤ -h + sd := by linarith
    exact (div_le_div_iff_of_pos_right h0).mpr this

@[simp] theorem Sphere.hitRecordAt_t (s : Sphere) (ray : Ray) (root : ℝ)
    (rec : HitRecord) : (s.hitRecordAt ray root rec).t = root := rfl

/-- Case analysis of `Sphere::hit`: on `false` the record is untouched
and there is no valid intersection parameter; on `true` the reported `t`
is a valid intersection parameter, it is the smallest one, and the
record is exactly the one built by `hitRecordAt`. -/
theorem Sphere.hit_spec (s : Sphere) (ray : Ray) (t_min t_max : ℝ)
    (rec : HitRecord) :
    ((s.hit ray t_min t_max rec).1 = false →
       (s.hit ray t_min t_max rec).2 = rec ∧
         ∀ t, ¬ s.validT ray t_min t_max t)
    ∧ ((s.hit ray t_min t_max rec).1 = true →
       s.validT ray t_min t_max ((s.hit ray t_min t_max rec).2).t
       ∧ (∀ t, s.validT ray t_min t_max t →
            ((s.hit ray t_min t_max rec).2).t ≤ t)
       ∧ (s.hit ray t_min t_max rec).2
           = s.hitRecordAt ray ((s.hit ray t_min t_max rec).2).t rec) := by
  have hale : 0 ≤ ray.direction.length_squared :=
    Vec3.length_squared_nonneg ray.direction
  have hs0 : 0 ≤ Real.sqrt ((ray.direction.dot (ray.origin - s.center)) *
      (ray.direction.dot (ray.origin - s.center)) -
      ray.direction.length_squared *
        ((ray.origin - s.center).length_squared - s.radius * s.radius)) :=
    Real.sqrt_nonneg _
  simp only [Sphere.hit, Sphere.validT]
  split_ifs with h1 h2 h3
  · -- discriminant < 0: no hit
    refine ⟨fun _ => ⟨rfl, fun t ht => ?_⟩, by simp⟩
    exact absurd ht.1 (not_le.mpr h1)
  · -- both roots outside the interval: no hit
    refine ⟨fun _ => ⟨rfl, fun t ht => ?_⟩, by simp⟩
    obtain ⟨-, hroot, hb1, hb2⟩ := ht
    rcases hroot with rfl | rfl
    · rcases h2 with h | h <;> [exact absurd hb1 (not_le.mpr h);
        exact absurd hb2 (not_le.mpr h)]
    · rcases h3 with h | h <;> [exact absurd hb1 (not_le.mpr h);
        exact absurd hb2 (not_le.mpr h)]
  · -- smaller root rejected, larger root accepted
    push_neg at h3
    refine ⟨by simp, fun _ => ⟨⟨not_lt.mp h1,
      Or.inr (by simp only [Sphere.hitRecordAt_t]),
      by simp only [Sphere.hitRecordAt_t]; exact h3.1,
      by simp only [Sphere.hitRecordAt_t]; exact h3.2⟩, fun t ht => ?_,
      by simp only [Sphere.hitRecordAt_t]⟩⟩
    obtain ⟨-, hroot, hb1, hb2⟩ := ht
    rcases hroot with rfl | rfl
    · rcases h2 with h | h <;> [exact absurd hb1 (not_le.mpr h);
        exact absurd hb2 (not_le.mpr h)]
    · simp only [Sphere.hitRecordAt_t]
      exact le_refl _
  · -- smaller root accepted
    push_neg at h2
    refine ⟨by simp, fun _ => ⟨⟨not_lt.mp h1,
      Or.inl (by simp only [Sphere.hitRecordAt_t]),
      by simp only [Sphere.hitRecordAt_t]; exact h2.1,
      by simp only [Sphere.hitRecordAt_t]; exact h2.2⟩, fun t ht => ?_,
      by simp only [Sphere.hitRecordAt_t]⟩⟩
    obtain ⟨-, hroot, -, -⟩ := ht
    rcases hroot with rfl | rfl
    · simp only [Sphere.hitRecordAt_t]
      exact le_refl _
    · simp only [Sphere.hitRecordAt_t]
      exact roots_ordered _ _ _ hale hs0

/-! ## The `HittableList::hit` scan -/

/-- Once `hit_anything` is set it stays set: the loop's boolean result
starting from `true` is `true`. -/
theorem hitLoop_true_stays (ray : Ray) (t_min : ℝ) :
    ∀ (fns : List HitFn) (tmp rec : HitRecord) (closest : ℝ)
      (b' : Bool) (rec' : HitRecord),
      hitLoop ray t_min fns tmp rec closest true = (b', rec') → b' = true := by
  intro fns
  induction fns with
  | nil =>
    intro tmp rec closest b' rec' h
    simpa using congrArg Prod.fst h.symm
  | cons f rest ih =>
    intro tmp rec closest b' rec' h
    simp only [hitLoop] at h
    by_cases hb : (f ray t_min closest tmp).1
    · rw [if_pos hb] at h
      exact ih _ _ _ _ _ h
    · rw [if_neg hb] at h
      exact ih _ _ _ _ _ h

/-- If the loop reports no hit, the caller's record is returned
untouched (and the incoming flag was `false`). -/
theorem hitLoop_false_spec (ray : Ray) (t_min : ℝ) :
    ∀ (fns : List HitFn) (tmp rec : HitRecord) (closest : ℝ) (b : Bool)
      (rec' : HitRecord),
      hitLoop ray t_min fns tmp rec closest b = (false, rec') →
      b = false ∧ rec' = rec := by
  intro fns
  induction fns with
  | nil =>
    intro tmp rec closest b rec' h
    obtain ⟨h1, h2⟩ := Prod.mk.injEq .. ▸ h
    exact ⟨h1, h2.symm⟩
  | cons f rest ih =>
    intro tmp rec closest b rec' h
    simp only [hitLoop] at h
    by_cases hb : (f ray t_min closest tmp).1
    · rw [if_pos hb] at h
      exact absurd (hitLoop_true_stays ray t_min _ _ _ _ _ _ h) (by simp)
    · rw [if_neg hb] at h
      exact ih _ _ _ _ _ h

/-- Invariant of the `HittableList::hit` scan over a list of spheres.
Starting from an arbitrary loop state, the loop either leaves the flag
and the caller's record unchanged because no remaining sphere
intersects within `[t_min, closest]`, or it reports `true` with a record
whose `t` is a valid intersection parameter of some remaining sphere,
below every valid intersection parameter of every remaining sphere, and
which was produced by an accepting `Sphere::hit` call. -/
theorem hitLoop_spheres_spec (ray : Ray) (t_min : ℝ) :
    ∀ (spheres : List Sphere) (tmp rec : HitRecord) (closest : ℝ)
      (b b' : Bool) (rec' : HitRecord),
      hitLoop ray t_min (spheres.map Sphere.hit) tmp rec closest b
        = (b', rec') →
      ( (b' = b ∧ rec' = rec ∧
          ∀ s ∈ spheres, ∀ t, ¬ s.validT ray t_min closest t)
      ∨ (b' = true
         ∧ (∃ s ∈ spheres, s.validT ray t_min closest rec'.t)
         ∧ (∀ s ∈ spheres, ∀ t, s.validT ray t_min closest t → rec'.t ≤ t)
         ∧ (∃ s ∈ spheres, ∃ tmp0 c0,
              Sphere.hit s ray t_min c0 tmp0 = (true, rec'))) ) := by
  intro spheres
  induction spheres with
  | nil =>
    intro tmp rec closest b b' rec' h
    obtain ⟨h1, h2⟩ := Prod.mk.injEq .. ▸ h
    exact Or.inl ⟨h1.symm, h2.symm, by simp⟩
  | cons s rest ih =>
    intro tmp rec closest b b' rec' h
    simp only [List.map_cons, hitLoop] at h
    by_cases hb : (Sphere.hit s ray t_min closest tmp).1
    · -- the head sphere accepts a hit within [t_min, closest]
      rw [if_pos hb] at h
      obtain ⟨hv, hmin, -⟩ := (Sphere.hit_spec s ray t_min closest tmp).2 hb
      have hhead : Sphere.hit s ray t_min closest tmp
          = (true, (Sphere.hit s ray t_min closest tmp).2) := by
        exact Prod.ext hb rfl
      have hvb := Sphere.validT_bounds hv
      rcases ih _ _ _ _ _ _ h with ⟨hb', hrec', hnone⟩ | ⟨hb', hex, hmin', hprov⟩
      · -- no later sphere improves on the head's hit
        subst hrec'
        refine Or.inr ⟨hb', ⟨s, by simp, hv⟩, ?_, ⟨s, by simp, tmp, closest, hhead⟩⟩
        intro s' hs' t hvt
        rcases List.mem_cons.mp hs' with rfl | hs'
        · exact hmin t hvt
        · by_contra hlt
          push_neg at hlt
          exact hnone s' hs' t (Sphere.validT_restrict hvt (le_of_lt hlt))
      · -- a later sphere found a strictly closer (≤) hit
        have hrt : rec'.t ≤ (Sphere.hit s ray t_min closest tmp).2.t := by
          obtain ⟨s', -, hv'⟩ := hex
          exact (Sphere.validT_bounds hv').2
        refine Or.inr ⟨hb', ?_, ?_, ?_⟩
        · obtain ⟨s', hs', hv'⟩ := hex
          exact ⟨s', List.mem_cons_of_mem _ hs', Sphere.validT_mono hvb.2 hv'⟩
        · intro s' hs' t hvt
          rcases List.mem_cons.mp hs' with rfl | hs'
          · exact hrt.trans (hmin t hvt)
          · by_cases hle : t ≤ (Sphere.hit s ray t_min closest tmp).2.t
            · exact hmin' s' hs' t (Sphere.validT_restrict hvt hle)
            · push_neg at hle
              exact hrt.trans (le_of_lt hle)
        · obtain ⟨s', hs', w⟩ := hprov
          exact ⟨s', List.mem_cons_of_mem _ hs', w⟩
    · -- the head sphere reports no hit within [t_min, closest]
      rw [if_neg hb] at h
      have hbfalse : (Sphere.hit s ray t_min closest tmp).1 = false :=
        Bool.not_eq_true _ ▸ eq_false_of_ne_true hb
      obtain ⟨-, hnone⟩ := (Sphere.hit_spec s ray t_min closest tmp).1 hbfalse
      rcases ih _ _ _ _ _ _ h with ⟨hb', hrec', hnone'⟩ | ⟨hb', hex, hmin', hprov⟩
      · refine Or.inl ⟨hb', hrec', ?_⟩
        intro s' hs' t
        rcases List.mem_cons.mp hs' with rfl | hs'
        · exact hnone t
        · exact hnone' s' hs' t
      · refine Or.inr ⟨hb', ?_, ?_, ?_⟩
        · obtain ⟨s', hs', hv'⟩ := hex
          exact ⟨s', List.mem_cons_of_mem _ hs', hv'⟩
        · intro s' hs' t hvt
          rcases List.mem_cons.mp hs' with rfl | hs'
          · exact absurd hvt (hnone t)
          · exact hmin' s' hs' t hvt
        · obtain ⟨s', hs', w⟩ := hprov
          exact ⟨s', List.mem_cons_of_mem _ hs', w⟩

/-! ## Claim theorems: materials and the radiance estimator -/

/-- C7: `Lambertian::scatter` always returns a continuation (never
absorbs), and the attenuation it writes is exactly the configured
albedo, for every input ray, hit record and random draw. -/
theorem lambertian_scatter_spec (l : Lambertian) (in_ray : Ray)
    (hit_record : HitRecord) (random_unit : Vec3) :
    (l.scatter in_ray hit_record random_unit).1 = true ∧
    (l.scatter in_ray hit_record random_unit).2.1 = l.albedo :=
  ⟨rfl, rfl⟩

/-- C6: `Metal::scatter` writes the metal's albedo as attenuation on
every call, and returns a continuation exactly when the fuzz-perturbed
reflected direction points away from the surface, i.e. when its dot
product with the hit normal is positive. -/
theorem metal_scatter_spec (m : Metal) (in_ray : Ray)
    (hit_record : HitRecord) (random_in_sphere : Vec3) :
    (m.scatter in_ray hit_record random_in_sphere).2.1 = m.albedo ∧
    ((m.scatter in_ray hit_record random_in_sphere).1 = true ↔
      0 < ((m.scatter in_ray hit_record random_in_sphere).2.2).direction.dot
            hit_record.normal) := by
  constructor
  · rfl
  · simp only [Metal.scatter, decide_eq_true_eq]

/-- C9: `Vec3::is_near_zero` holds exactly when every signed component
is below `1e-8`; no absolute value is taken, so it also holds for the
vector `(-1, -1, -1)`. -/
theorem is_near_zero_spec :
    (∀ v : Vec3, v.is_near_zero = true ↔
      (v.x < 1e-8 ∧ v.y < 1e-8 ∧ v.z < 1e-8)) ∧
    (Vec3.mk (-1) (-1) (-1)).is_near_zero = true := by
  constructor
  · intro v
    simp [Vec3.is_near_zero, Vec3.EPS, and_assoc]
  · simp only [Vec3.is_near_zero, Vec3.EPS]
    norm_num

/-- C8: with bounce budget `0`, `ray_color` returns black `(0,0,0)` and
leaves the random state untouched, for every scene query function and
every scatter oracle — in particular without consulting either. -/
theorem ray_color_budget_zero (σ : Type) (world_hit : HitFn)
    (scatter : σ → Material → Ray → HitRecord → Bool × Vec3 × Ray × σ)
    (ray : Ray) (rng : σ) :
    ray_color world_hit scatter ray rng 0 = (Vec3.mk 0 0 0, rng) := rfl

/-- C3: the evaluation of `ray_color` with bounce budget `n` performs at
most `n + 1` invocations (the initial call included): the single
recursive call, when taken, is made with budget `n - 1`, for every
scene, scatter oracle, ray and random state. -/
theorem ray_color_call_bound (σ : Type) (world_hit : HitFn)
    (scatter : σ → Material → Ray → HitRecord → Bool × Vec3 × Ray × σ) :
    ∀ (n : Nat) (ray : Ray) (rng : σ),
      ray_color_calls world_hit scatter ray rng n ≤ n + 1 := by
  intro n
  induction n with
  | zero =>
    intro ray rng
    simp [ray_color_calls]
  | succ n ih =>
    intro ray rng
    simp only [ray_color_calls]
    split_ifs with h1 h2
    all_goals try omega
    have := ih (scatter rng (world_hit ray 0.001 f32_max
      HitRecord.empty).2.material ray
      (world_hit ray 0.001 f32_max HitRecord.empty).2).2.2.1
      (scatter rng (world_hit ray 0.001 f32_max
        HitRecord.empty).2.material ray
        (world_hit ray 0.001 f32_max HitRecord.empty).2).2.2.2
    omega

/-- C5: `Dielectric::scatter` always returns a continuation with
attenuation exactly white `(1,1,1)`; the scattered direction is the
mirror reflection of the unit incoming direction exactly on the branch
where refraction is impossible (`(n_src/n_dst)·sin θ > 1`) or where the
uniform draw `u` falls below the Schlick reflectance
`r0 + (1-r0)·(1-cos θ)^5` with `r0 = ((1-ratio)/(1+ratio))²`; in all
other cases it is the Snell refraction built from perpendicular and
parallel components. -/
theorem dielectric_scatter_spec (die : Dielectric) (in_ray : Ray)
    (hit_record : HitRecord) (u : ℝ) :
    let src : ℝ := if hit_record.front_face then 1 else die.refraction_index
    let dst : ℝ := if hit_record.front_face then die.refraction_index else 1
    let ratio := src / dst
    let ud := unit_vector in_ray.direction
    let cos_theta := min ((-ud).dot hit_record.normal) 1
    let sin_theta := Real.sqrt (1 - cos_theta * cos_theta)
    let r0 := ((1 - ratio) / (1 + ratio)) ^ 2
    die.scatter in_ray hit_record u =
      (true, ⟨1, 1, 1⟩,
       Ray.mk hit_record.point
         (if ratio * sin_theta > 1 ∨
             u < r0 + (1 - r0) * (1 - cos_theta) ^ 5
          then reflect ud hit_record.normal
          else refract ud hit_record.normal src dst)) := by
  cases hf : hit_record.front_face <;>
    simp only [Dielectric.scatter, Dielectric.reflectance, hf,
      Bool.false_eq_true, if_true, if_false, pow_two, gt_iff_lt]

/-! ## Concrete test scenes -/

/-- A gray Lambertian material for concrete scenes. -/
def matGray : Material := Material.lambertian ⟨⟨1/2, 1/2, 1/2⟩⟩

/-- Unit sphere at the origin. -/
def unitSphere : Sphere := ⟨⟨0, 0, 0⟩, 1, matGray⟩

/-- Sphere at the origin with radius `0` (the degenerate radius the data
model allows). -/
def zeroSphere : Sphere := ⟨⟨0, 0, 0⟩, 0, matGray⟩

/-- A ray on the x-axis aimed at the origin from `(2,0,0)`. -/
def axisRay : Ray := ⟨⟨2, 0, 0⟩, ⟨-1, 0, 0⟩⟩

/-- A ray passing well outside the unit sphere. -/
def missRay : Ray := ⟨⟨3, 0, 0⟩, ⟨0, 1, 0⟩⟩

/-- `axisRay` against `unitSphere` on `[1/2, 2]` accepts the smaller
quadratic root `t = 1`. -/
theorem unitSphere_hit_fst :
    (Sphere.hit unitSphere axisRay (1/2) 2 HitRecord.empty).1 = true := by
  simp only [Sphere.hit, unitSphere, axisRay, matGray, Vec3.sub_def,
    Vec3.dot, Vec3.length_squared]
  norm_num [Real.sqrt_one]

/-- The `t` accepted by `axisRay` against `unitSphere` on `[1/2, 2]`. -/
theorem unitSphere_hit_t :
    ((Sphere.hit unitSphere axisRay (1/2) 2 HitRecord.empty).2).t = 1 := by
  simp only [Sphere.hit, unitSphere, axisRay, matGray, Vec3.sub_def,
    Vec3.dot, Vec3.length_squared]
  norm_num [Real.sqrt_one]

/-- `missRay` misses `unitSphere`: negative discriminant, record
untouched. -/
theorem unitSphere_miss_eval :
    Sphere.hit unitSphere missRay 0 1 HitRecord.empty
      = (false, HitRecord.empty) := by
  simp only [Sphere.hit, unitSphere, missRay, matGray, Vec3.sub_def,
    Vec3.dot, Vec3.length_squared]
  norm_num

/-! ## Claim theorems: sphere intersection -/

/-- C1 (amended: the interval test is closed, not open):
`Sphere::hit` computes the half-b discriminant `half_b² − a·c` and
reports no hit when it is negative; otherwise it accepts the smaller
root `(-half_b − √disc)/a` if it lies in the closed interval
`[t_min, t_max]`, else tries the larger root `(-half_b + √disc)/a`
under the same closed-interval condition, else reports no hit; and any
accepted `t` is the smallest valid root in the interval. -/
theorem sphere_hit_root_selection (s : Sphere) (ray : Ray)
    (t_min t_max : ℝ) (rec : HitRecord)
    (a half_b c discriminant root1 root2 : ℝ)
    (ha : a = ray.direction.length_squared)
    (hhb : half_b = ray.direction.dot (ray.origin - s.center))
    (hc : c = (ray.origin - s.center).length_squared - s.radius * s.radius)
    (hd : discriminant = half_b * half_b - a * c)
    (h1 : root1 = (-half_b - Real.sqrt discriminant) / a)
    (h2 : root2 = (-half_b + Real.sqrt discriminant) / a) :
    (discriminant < 0 → s.hit ray t_min t_max rec = (false, rec))
    ∧ (0 ≤ discriminant → t_min ≤ root1 → root1 ≤ t_max →
        (s.hit ray t_min t_max rec).1 = true ∧
        ((s.hit ray t_min t_max rec).2).t = root1)
    ∧ (0 ≤ discriminant → (root1 < t_min ∨ root1 > t_max) →
        t_min ≤ root2 → root2 ≤ t_max →
        (s.hit ray t_min t_max rec).1 = true ∧
        ((s.hit ray t_min t_max rec).2).t = root2)
    ∧ (0 ≤ discriminant → (root1 < t_min ∨ root1 > t_max) →
        (root2 < t_min ∨ root2 > t_max) →
        s.hit ray t_min t_max rec = (false, rec))
    ∧ ((s.hit ray t_min t_max rec).1 = true →
        s.validT ray t_min t_max ((s.hit ray t_min t_max rec).2).t ∧
        ∀ t, s.validT ray t_min t_max t →
          ((s.hit ray t_min t_max rec).2).t ≤ t) := by
  subst ha hhb hc hd h1 h2
  refine ⟨?_, ?_, ?_, ?_, fun hb =>
    ⟨((Sphere.hit_spec s ray t_min t_max rec).2 hb).1,
     ((Sphere.hit_spec s ray t_min t_max rec).2 hb).2.1⟩⟩
  · intro hlt
    simp only [Sphere.hit]
    rw [if_pos hlt]
  · intro hd0 hb1 hb2
    simp only [Sphere.hit]
    rw [if_neg (not_lt.mpr hd0),
      if_neg (not_or.mpr ⟨not_lt.mpr hb1, not_lt.mpr hb2⟩)]
    exact ⟨rfl, rfl⟩
  · intro hd0 hrej hb1 hb2
    simp only [Sphere.hit]
    rw [if_neg (not_lt.mpr hd0), if_pos hrej,
      if_neg (not_or.mpr ⟨not_lt.mpr hb1, not_lt.mpr hb2⟩)]
    exact ⟨rfl, rfl⟩
  · intro hd0 hrej1 hrej2
    simp only [Sphere.hit]
    rw [if_neg (not_lt.mpr hd0), if_pos hrej1, if_pos hrej2]

/-- C1 counterexample to the claim as stated (open-interval root test):
with the unit sphere, the axis ray and bounds `t_min = 1`, `t_max = 2`,
the code accepts the root `t = 1` even though `1` does not lie in the
open interval `(1, 2)` (it sits on the boundary `t = t_min`), so the
acceptance test is on the closed interval. -/
theorem sphere_hit_open_interval_cex :
    (Sphere.hit unitSphere axisRay 1 2 HitRecord.empty).1 = true ∧
    ((Sphere.hit unitSphere axisRay 1 2 HitRecord.empty).2).t = 1 ∧
    (1 : ℝ) ∉ Set.Ioo (1 : ℝ) 2 := by
  refine ⟨?_, ?_, by simp⟩
  · simp only [Sphere.hit, unitSphere, axisRay, matGray, Vec3.sub_def,
      Vec3.dot, Vec3.length_squared]
    norm_num [Real.sqrt_one]
  · simp only [Sphere.hit, unitSphere, axisRay, matGray, Vec3.sub_def,
      Vec3.dot, Vec3.length_squared]
    norm_num [Real.sqrt_one]

/-- Witness for `sphere_hit_root_selection`: the axis ray against the
unit sphere on `[1/2, 2]` accepts the smaller root `t = 1`. -/
theorem sphere_hit_root_selection_witness :
    (Sphere.hit unitSphere axisRay (1/2) 2 HitRecord.empty).1 = true ∧
    ((Sphere.hit unitSphere axisRay (1/2) 2 HitRecord.empty).2).t = 1 := by
  have h := (sphere_hit_root_selection unitSphere axisRay (1/2) 2
    HitRecord.empty 1 (-2) 3 1 1 3
    (by norm_num [axisRay, Vec3.length_squared])
    (by norm_num [axisRay, unitSphere, Vec3.dot])
    (by norm_num [axisRay, unitSphere, Vec3.length_squared])
    (by norm_num)
    (by norm_num [Real.sqrt_one])
    (by norm_num [Real.sqrt_one])).2.1
    (by norm_num) (by norm_num) (by norm_num)
  exact h

/-- C2: `HittableList::hit` scans its members with a shrinking upper
bound initialized to the caller's `t_max`.  On the empty list it
reports no hit and leaves the record unchanged; when it reports no hit,
no member sphere has a valid intersection parameter in
`[t_min, t_max]`; when it reports a hit, the reported `t` is a valid
intersection parameter of some member and is at most every valid
intersection parameter of every member — the globally smallest valid
`t`. -/
theorem hittable_list_closest_hit (spheres : List Sphere) (ray : Ray)
    (t_min t_max : ℝ) (rec : HitRecord) :
    HittableList.hit [] ray t_min t_max rec = (false, rec)
    ∧ (∀ b' rec',
        HittableList.hit (spheres.map Sphere.hit) ray t_min t_max rec
          = (b', rec') →
        ((b' = false → rec' = rec ∧
            ∀ s ∈ spheres, ∀ t, ¬ s.validT ray t_min t_max t)
         ∧ (b' = true →
            (∃ s ∈ spheres, s.validT ray t_min t_max rec'.t)
            ∧ ∀ s ∈ spheres, ∀ t, s.validT ray t_min t_max t →
                rec'.t ≤ t))) := by
  refine ⟨rfl, ?_⟩
  intro b' rec' h
  simp only [HittableList.hit] at h
  have hspec := hitLoop_spheres_spec ray t_min spheres HitRecord.empty rec
    t_max false b' rec' h
  constructor
  · intro hb'
    subst hb'
    rcases hspec with ⟨-, hrec, hnone⟩ | ⟨htrue, -, -, -⟩
    · exact ⟨hrec, hnone⟩
    · exact absurd htrue (by simp)
  · intro hb'
    subst hb'
    rcases hspec with ⟨hfalse, -, -⟩ | ⟨-, hex, hmin, -⟩
    · exact absurd hfalse (by simp)
    · exact ⟨hex, hmin⟩

/-- Witness for `hittable_list_closest_hit`: the one-sphere scene
`[unitSphere]` queried with the axis ray on `[1/2, 2]` reports a hit
whose `t` lies within the query interval. -/
theorem hittable_list_closest_hit_witness :
    (1/2 : ℝ) ≤ ((HittableList.hit (List.map Sphere.hit [unitSphere])
        axisRay (1/2) 2 HitRecord.empty).2).t ∧
    ((HittableList.hit (List.map Sphere.hit [unitSphere])
        axisRay (1/2) 2 HitRecord.empty).2).t ≤ 2 := by
  have hfst : (HittableList.hit (List.map Sphere.hit [unitSphere])
      axisRay (1/2) 2 HitRecord.empty).1 = true := by
    simp only [HittableList.hit, List.map, hitLoop]
    rw [if_pos unitSphere_hit_fst]
  have h := ((hittable_list_closest_hit [unitSphere] axisRay (1/2) 2
    HitRecord.empty).2
    ((HittableList.hit (List.map Sphere.hit [unitSphere]) axisRay (1/2) 2
      HitRecord.empty).1)
    ((HittableList.hit (List.map Sphere.hit [unitSphere]) axisRay (1/2) 2
      HitRecord.empty).2) rfl).2 hfst
  obtain ⟨⟨s, -, hv⟩, -⟩ := h
  exact Sphere.validT_bounds hv

/-- C10: when `Sphere::hit` reports no hit, the caller's record is
returned exactly as passed in; the same holds for `HittableList::hit`,
whose member scan writes the caller's record only when a member's hit
is accepted. -/
theorem hit_miss_leaves_record :
    (∀ (s : Sphere) (ray : Ray) (t_min t_max : ℝ) (rec rec' : HitRecord),
      Sphere.hit s ray t_min t_max rec = (false, rec') → rec' = rec)
    ∧ (∀ (fns : List HitFn) (ray : Ray) (t_min t_max : ℝ)
        (rec rec' : HitRecord),
      HittableList.hit fns ray t_min t_max rec = (false, rec') →
        rec' = rec) := by
  constructor
  · intro s ray t_min t_max rec rec' h
    have hfst : (Sphere.hit s ray t_min t_max rec).1 = false := by
      rw [h]
    have := ((Sphere.hit_spec s ray t_min t_max rec).1 hfst).1
    rw [h] at this
    exact this
  · intro fns ray t_min t_max rec rec' h
    simp only [HittableList.hit] at h
    exact (hitLoop_false_spec ray t_min fns HitRecord.empty rec t_max
      false rec' h).2

/-- Witness for `hit_miss_leaves_record`: `missRay` misses the unit
sphere (negative discriminant) both directly and through a one-element
list, and the empty record is returned untouched in both cases. -/
theorem hit_miss_leaves_record_witness :
    ((Sphere.hit unitSphere missRay 0 1 HitRecord.empty).2
        = HitRecord.empty) ∧
    ((HittableList.hit [Sphere.hit unitSphere] missRay 0 1
        HitRecord.empty).2 = HitRecord.empty) := by
  have hlist : HittableList.hit [Sphere.hit unitSphere] missRay 0 1
      HitRecord.empty = (false, HitRecord.empty) := by
    simp only [HittableList.hit, hitLoop, unitSphere_miss_eval]
    rfl
  constructor
  · exact hit_miss_leaves_record.1 unitSphere missRay 0 1 HitRecord.empty
      (Sphere.hit unitSphere missRay 0 1 HitRecord.empty).2
      (Prod.ext (by rw [unitSphere_miss_eval]) rfl)
  · exact hit_miss_leaves_record.2 [Sphere.hit unitSphere] missRay 0 1
      HitRecord.empty
      (HittableList.hit [Sphere.hit unitSphere] missRay 0 1
        HitRecord.empty).2
      (Prod.ext (by rw [hlist]) rfl)

/-! ## Hit-record invariants -/

theorem Sphere.hitRecordAt_point (s : Sphere) (ray : Ray) (root : ℝ)
    (rec : HitRecord) :
    (s.hitRecordAt ray root rec).point = ray.pointAt root := rfl

theorem Sphere.hitRecordAt_front_face (s : Sphere) (ray : Ray) (root : ℝ)
    (rec : HitRecord) :
    (s.hitRecordAt ray root rec).front_face
      = decide (ray.direction.dot
          (unit_vector (ray.pointAt root - s.center)) < 0) := rfl

theorem Sphere.hitRecordAt_normal (s : Sphere) (ray : Ray) (root : ℝ)
    (rec : HitRecord) :
    (s.hitRecordAt ray root rec).normal
      = if decide (ray.direction.dot
            (unit_vector (ray.pointAt root - s.center)) < 0)
        then unit_vector (ray.pointAt root - s.center)
        else -(unit_vector (ray.pointAt root - s.center)) := rfl

/-- The record accepted by `Sphere::hit` satisfies the `HitRecord`
invariants, provided the ray direction and the sphere radius are
nonzero: `t` lies in the closed query interval, the stored normal is
unit length and not along the ray direction, and `front_face` holds
exactly when the ray direction opposes the outward normal. -/
theorem Sphere.hit_record_props (s : Sphere) (ray : Ray)
    (t_min t_max : ℝ) (rec : HitRecord)
    (hdir : ray.direction ≠ Vec3.zero) (hrad : s.radius ≠ 0)
    (hb : (s.hit ray t_min t_max rec).1 = true) :
    (t_min ≤ ((s.hit ray t_min t_max rec).2).t ∧
      ((s.hit ray t_min t_max rec).2).t ≤ t_max) ∧
    (((s.hit ray t_min t_max rec).2).normal).length = 1 ∧
    ray.direction.dot (((s.hit ray t_min t_max rec).2).normal) ≤ 0 ∧
    (((s.hit ray t_min t_max rec).2).front_face = true ↔
      ray.direction.dot (unit_vector
        ((((s.hit ray t_min t_max rec).2).point) - s.center)) < 0) := by
  obtain ⟨hv, -, hshape⟩ := (Sphere.hit_spec s ray t_min t_max rec).2 hb
  have ha : ray.direction.length_squared ≠ 0 := fun h0 =>
    hdir ((Vec3.length_squared_eq_zero_iff _).mp h0)
  have honsphere := validT_point_on_sphere s ray t_min t_max _ ha hv
  have hpos : 0 < (ray.pointAt ((s.hit ray t_min t_max rec).2).t
      - s.center).length_squared := by
    rw [honsphere]
    exact mul_self_pos.mpr hrad
  refine ⟨Sphere.validT_bounds hv, ?_, ?_, ?_⟩
  · rw [hshape, Sphere.hitRecordAt_normal]
    by_cases hff : ray.direction.dot (unit_vector
        (ray.pointAt ((s.hit ray t_min t_max rec).2).t - s.center)) < 0
    · rw [if_pos (decide_eq_true hff)]
      exact unit_vector_length _ hpos
    · rw [if_neg fun hc => hff (of_decide_eq_true hc), Vec3.length_neg]
      exact unit_vector_length _ hpos
  · rw [hshape, Sphere.hitRecordAt_normal]
    by_cases hff : ray.direction.dot (unit_vector
        (ray.pointAt ((s.hit ray t_min t_max rec).2).t - s.center)) < 0
    · rw [if_pos (decide_eq_true hff)]
      exact le_of_lt hff
    · rw [if_neg fun hc => hff (of_decide_eq_true hc), Vec3.dot_neg_right]
      linarith [not_lt.mp hff]
  · rw [hshape, Sphere.hitRecordAt_front_face, Sphere.hitRecordAt_point]
    exact ⟨of_decide_eq_true, decide_eq_true⟩

/-- The record reported by `HittableList::hit` over spheres satisfies
the same invariants, the outward normal being the one of the member
sphere that produced the accepted record. -/
theorem list_hit_record_props (spheres : List Sphere) (ray : Ray)
    (t_min t_max : ℝ) (rec rec' : HitRecord)
    (hdir : ray.direction ≠ Vec3.zero)
    (hrads : ∀ s ∈ spheres, s.radius ≠ 0)
    (h : HittableList.hit (spheres.map Sphere.hit) ray t_min t_max rec
      = (true, rec')) :
    (t_min ≤ rec'.t ∧ rec'.t ≤ t_max) ∧
    (rec'.normal).length = 1 ∧
    ray.direction.dot rec'.normal ≤ 0 ∧
    ∃ s ∈ spheres, (rec'.front_face = true ↔
      ray.direction.dot (unit_vector (rec'.point - s.center)) < 0) := by
  simp only [HittableList.hit] at h
  rcases hitLoop_spheres_spec ray t_min spheres HitRecord.empty rec t_max
      false true rec' h with ⟨hfalse, -, -⟩ | ⟨-, hex, -, hprov⟩
  · exact absurd hfalse (by simp)
  · obtain ⟨s0, hs0, tmp0, c0, heq⟩ := hprov
    have hb0 : (Sphere.hit s0 ray t_min c0 tmp0).1 = true := by rw [heq]
    have h2 : (Sphere.hit s0 ray t_min c0 tmp0).2 = rec' := by rw [heq]
    have hprops := Sphere.hit_record_props s0 ray t_min c0 tmp0 hdir
      (hrads s0 hs0) hb0
    rw [h2] at hprops
    obtain ⟨s1, -, hv1⟩ := hex
    exact ⟨Sphere.validT_bounds hv1, hprops.2.1, hprops.2.2.1,
      ⟨s0, hs0, hprops.2.2.2⟩⟩

/-- C4 (amended: requires a nonzero ray direction and nonzero sphere
radii — with a zero radius the accepted hit point coincides with the
center and the normal degenerates): at the moment a hit is accepted by
`Sphere::hit` or by `HittableList::hit` over spheres, the record
satisfies `t_min ≤ t ≤ t_max`, the stored normal is unit length,
`dot(ray.direction, normal) ≤ 0`, and `front_face` holds exactly when
`dot(ray.direction, outward_normal) < 0` for the producing sphere's
outward normal. -/
theorem hit_record_invariants (ray : Ray)
    (hdir : ray.direction ≠ Vec3.zero) :
    (∀ (s : Sphere), s.radius ≠ 0 →
      ∀ (t_min t_max : ℝ) (rec : HitRecord),
      (s.hit ray t_min t_max rec).1 = true →
      (t_min ≤ ((s.hit ray t_min t_max rec).2).t ∧
        ((s.hit ray t_min t_max rec).2).t ≤ t_max) ∧
      (((s.hit ray t_min t_max rec).2).normal).length = 1 ∧
      ray.direction.dot (((s.hit ray t_min t_max rec).2).normal) ≤ 0 ∧
      (((s.hit ray t_min t_max rec).2).front_face = true ↔
        ray.direction.dot (unit_vector
          ((((s.hit ray t_min t_max rec).2).point) - s.center)) < 0))
    ∧ (∀ (spheres : List Sphere), (∀ s ∈ spheres, s.radius ≠ 0) →
      ∀ (t_min t_max : ℝ) (rec rec' : HitRecord),
      HittableList.hit (spheres.map Sphere.hit) ray t_min t_max rec
        = (true, rec') →
      (t_min ≤ rec'.t ∧ rec'.t ≤ t_max) ∧
      (rec'.normal).length = 1 ∧
      ray.direction.dot rec'.normal ≤ 0 ∧
      ∃ s ∈ spheres, (rec'.front_face = true ↔
        ray.direction.dot (unit_vector (rec'.point - s.center)) < 0)) :=
  ⟨fun s hrad t_min t_max rec hb =>
    Sphere.hit_record_props s ray t_min t_max rec hdir hrad hb,
   fun spheres hrads t_min t_max rec rec' h =>
    list_hit_record_props spheres ray t_min t_max rec rec' hdir hrads h⟩

/-- C4 counterexample to the claim as stated: a sphere of radius `0`
(allowed by the data model) accepts a hit — the axis ray aimed at its
center, discriminant exactly `0` — whose stored normal is the zero
vector, not a unit vector. -/
theorem hit_record_degenerate_normal_cex :
    (Sphere.hit zeroSphere axisRay 0 3 HitRecord.empty).1 = true ∧
    (((Sphere.hit zeroSphere axisRay 0 3 HitRecord.empty).2).normal).length
      ≠ 1 := by
  have hfst : (Sphere.hit zeroSphere axisRay 0 3 HitRecord.empty).1
      = true := by
    simp only [Sphere.hit, zeroSphere, axisRay, matGray, Vec3.sub_def,
      Vec3.dot, Vec3.length_squared]
    norm_num [Real.sqrt_zero]
  have ht : ((Sphere.hit zeroSphere axisRay 0 3 HitRecord.empty).2).t
      = 2 := by
    simp only [Sphere.hit, zeroSphere, axisRay, matGray, Vec3.sub_def,
      Vec3.dot, Vec3.length_squared]
    norm_num [Real.sqrt_zero]
  have hshape :=
    ((Sphere.hit_spec zeroSphere axisRay 0 3 HitRecord.empty).2 hfst).2.2
  rw [ht] at hshape
  have huv : unit_vector (axisRay.pointAt 2 - zeroSphere.center)
      = ⟨0, 0, 0⟩ := by
    simp [unit_vector, axisRay, zeroSphere, Ray.pointAt, Vec3.length,
      Vec3.length_squared]
  have hdot : axisRay.direction.dot (⟨0, 0, 0⟩ : Vec3) = 0 := by
    simp [Vec3.dot, axisRay]
  refine ⟨hfst, ?_⟩
  rw [hshape, Sphere.hitRecordAt_normal, huv, hdot,
    if_neg fun hc => absurd (of_decide_eq_true hc) (lt_irrefl 0)]
  simp [Vec3.length, Vec3.length_squared]

/-- Witness for `hit_record_invariants`: the axis ray against the unit
sphere on `[1/2, 2]` yields a record with `t` in the interval, a unit
normal, and a normal not along the ray. -/
theorem hit_record_invariants_witness :
    ((1/2 : ℝ) ≤ ((Sphere.hit unitSphere axisRay (1/2) 2
        HitRecord.empty).2).t ∧
      ((Sphere.hit unitSphere axisRay (1/2) 2 HitRecord.empty).2).t ≤ 2) ∧
    (((Sphere.hit unitSphere axisRay (1/2) 2
        HitRecord.empty).2).normal).length = 1 ∧
    axisRay.direction.dot
      (((Sphere.hit unitSphere axisRay (1/2) 2
        HitRecord.empty).2).normal) ≤ 0 := by
  have h := (hit_record_invariants axisRay
    (by norm_num [axisRay, Vec3.zero, Vec3.mk.injEq])).1 unitSphere
    (by norm_num [unitSphere]) (1/2) 2 HitRecord.empty unitSphere_hit_fst
  exact ⟨h.1, h.2.1, h.2.2.1⟩
